import Mathlib

/-!
Verification development for the ledger-A repository: a shallow embedding of
the day/entry data model, the CSV day store, the undo subsystem, the ledger
service and the currency converter, for both the Go implementation
(internal/ledger, internal/currency) and the TypeScript implementation
(src/services, src/types), together with theorems settling the specification
claims.

Modelling conventions:
- A calendar date is a year/month/day triple (CalDate); time-of-day plays no
  role in the modelled code paths.
- Monetary amounts (Go float64, TS number) are modelled as rationals; the
  fixed-point formatting "%.2f" and "%.0f" is modelled by rounding to the
  corresponding decimal grid (cents, integers).  Tie-breaking of the binary
  float formatter is abstracted by the generic round function; no modelled
  claim depends on the tie direction.
- A CSV cell is modelled by the Field structure: its raw text together with
  the result of parsing it as a date (Go time.Parse with layout 2006-01-02 /
  TS parseISODate) and as a number (Go strconv.ParseFloat / TS parseFloat).
  Writing a value with a given formatter produces a cell whose corresponding
  parse returns the value on the formatting grid.  A CSV file is a list of
  records, each a list of Fields; the byte-level quoting or unquoting done by
  the CSV libraries round-trips records and is not re-verified here.
- The file system is a Disk: two finite maps from dates to CSV record lists
  and journal strings.  Missing files are none.  Write errors are out of
  scope; read behaviour (including the not-found path) follows the sources.
- The nanosecond (Go) or millisecond (TS) wall clock read by entry
  construction is threaded as a natural number parameter; successive reads
  within one load are modelled as t, t+1, t+2, ...
-/

namespace Ledger

/-- Calendar date (year, month, day). -/
structure CalDate where
  year : Nat
  month : Nat
  day : Nat
  deriving DecidableEq

/-- Entry mirrors the Go struct ledger.Entry and the TS interface Entry:
id, date, description, CAD amount, IDR amount, screen time string. -/
structure Entry where
  id : String
  date : CalDate
  description : String
  cad : Rat
  idr : Rat
  screenTime : String
  deriving DecidableEq

/-- Day mirrors ledger.Day / the TS Day interface: date, ordered entry list,
day-level screen time, journal text. -/
structure Day where
  date : CalDate
  entries : List Entry
  screenTime : String
  journal : String
  deriving DecidableEq

/-- Entry id generation: Go NewEntry builds fmt.Sprintf with the current
UnixNano clock and the first 8 characters of the description; TS createEntry
builds the same shape from Date.now().  The clock is the Nat parameter. -/
def genId (now : Nat) (description : String) : String :=
  toString now ++ "-" ++ description.take 8

/-- ledger.NewEntry / TS createEntry with an explicit clock value. -/
def NewEntry (now : Nat) (date : CalDate) (description : String)
    (cad idr : Rat) (screenTime : String) : Entry :=
  { id := genId now description, date := date, description := description,
    cad := cad, idr := idr, screenTime := screenTime }

/-- ledger.NewDay / TS createDay. -/
def NewDay (date : CalDate) : Day :=
  { date := date, entries := [], screenTime := "", journal := "" }

/-- Entry.Clone (Go) / cloneEntry (TS): a deep copy; on the value level it is
the identity. -/
def Entry.Clone (e : Entry) : Entry :=
  { id := e.id, date := e.date, description := e.description,
    cad := e.cad, idr := e.idr, screenTime := e.screenTime }

/-- Day.AddEntry (Go): sets the screen time of the added entry to the
screen time of the day, then appends. -/
def Day.AddEntry (d : Day) (e : Entry) : Day :=
  { d with entries := d.entries ++ [{ e with screenTime := d.screenTime }] }

/-- Helper for Day.RemoveEntry: remove the first entry with the given id,
returning the remaining list and the removed entry if any. -/
def removeFirst (id : String) : List Entry → List Entry × Option Entry
  | [] => ([], none)
  | e :: rest =>
    if e.id = id then (rest, some e)
    else
      let p := removeFirst id rest
      (e :: p.1, p.2)

/-- Day.RemoveEntry (Go) / removeEntry (TS): removes the first entry whose id
matches and returns it; removing a nonexistent id leaves the day unchanged
and returns none. -/
def Day.RemoveEntry (d : Day) (id : String) : Day × Option Entry :=
  let p := removeFirst id d.entries
  ({ d with entries := p.1 }, p.2)

/-- Helper for Day.UpdateEntry: replace the first entry whose id matches. -/
def replaceById (x : Entry) : List Entry → List Entry × Bool
  | [] => ([], false)
  | e :: rest =>
    if e.id = x.id then (x :: rest, true)
    else
      let p := replaceById x rest
      (e :: p.1, p.2)

/-- Day.UpdateEntry (Go) / updateEntry (TS): replaces the entry with a
matching id; returns whether a replacement happened. -/
def Day.UpdateEntry (d : Day) (entry : Entry) : Day × Bool :=
  let p := replaceById entry d.entries
  ({ d with entries := p.1 }, p.2)

/-- Day.SetScreenTime (Go) / setScreenTime (TS): sets the day screen time and
overwrites the screen time of every contained entry. -/
def Day.SetScreenTime (d : Day) (st : String) : Day :=
  { d with screenTime := st,
           entries := d.entries.map fun e => { e with screenTime := st } }

/-- Day.IsEmpty (Go) / isEmpty (TS): no entries and empty journal. -/
def Day.IsEmpty (d : Day) : Bool :=
  d.entries.isEmpty && (d.journal == "")

/-- A CSV cell: its raw text, and the results of parsing it as a date and as
a floating point number (see the header comment for the conventions). -/
structure Field where
  raw : String
  asDate : Option CalDate
  asNum : Option Rat
  deriving DecidableEq

/-- Rounding to cents: the integer printed by the Go formatter %.2f and the
TS toFixed(2), with the tie direction abstracted. -/
def cents (q : Rat) : Int := round (q * 100)

/-- The rational value recovered when a %.2f-formatted amount is parsed
back. -/
def round2 (q : Rat) : Rat := (cents q : Rat) / 100

/-- The rational value recovered when a %.0f-formatted (or Math.round-ed)
amount is parsed back. -/
def roundInt (q : Rat) : Rat := (round q : Int)

/-- The zero digit used by the two-digit padding. -/
def zeroDigit : String := "0"

/-- The empty string (absent journal text, empty screen time). -/
def emptyText : String := ""

/-- Two-digit zero padding used by the date formatter. -/
def pad2 (n : Nat) : String :=
  if n < 10 then zeroDigit ++ toString n else toString n

/-- The date column text, layout 2006-01-02 (Go) / formatDateISO (TS). -/
def dateText (d : CalDate) : String :=
  toString d.year ++ "-" ++ pad2 d.month ++ "-" ++ pad2 d.day

/-- A text cell (description, screen time, header): read back verbatim.  Its
date and number parses are irrelevant to the modelled readers, which never
parse those columns as dates or numbers. -/
def textField (s : String) : Field :=
  { raw := s, asDate := none, asNum := none }

/-- The date cell written for an entry: parses back to the same date. -/
def dateField (d : CalDate) : Field :=
  { raw := dateText d, asDate := some d, asNum := none }

/-- String image of an integer, used only for the unread raw text of numeric
cells. -/
def intText (n : Int) : String := toString n

/-- The cad cell: written with %.2f / toFixed(2); parses back to the amount
rounded to cents. -/
def cadField (q : Rat) : Field :=
  { raw := intText (cents q / 100) ++ "." ++ pad2 (cents q % 100).natAbs,
    asDate := none, asNum := some (round2 q) }

/-- The idr cell: written with %.0f / Math.round; parses back to the rounded
integer. -/
def idrField (q : Rat) : Field :=
  { raw := intText (round q), asDate := none, asNum := some (roundInt q) }

/-- The header record date,description,cad,idr,screen_time. -/
def csvHeaderRecord : List Field :=
  [{ raw := "date", asDate := none, asNum := none },
   { raw := "description", asDate := none, asNum := none },
   { raw := "cad", asDate := none, asNum := none },
   { raw := "idr", asDate := none, asNum := none },
   { raw := "screen_time", asDate := none, asNum := none }]

/-- The record written for one entry by CSVManager.SaveDay (both
implementations): entry date, description, cad to 2 decimals, idr rounded to
integer, and the screen time of the DAY (not of the entry), repeated on
every row. -/
def entryRecord (day : Day) (e : Entry) : List Field :=
  [dateField e.date, textField e.description, cadField e.cad,
   idrField e.idr, textField day.screenTime]

/-- The full record list written by SaveDay: header plus one row per entry in
list order. -/
def SaveRecords (day : Day) : List (List Field) :=
  csvHeaderRecord :: day.entries.map (entryRecord day)

/-- The file system: per-date CSV record lists and journal strings; none
means the file does not exist. -/
structure Disk where
  csv : CalDate → Option (List (List Field))
  journal : CalDate → Option String

/-- A disk with no files. -/
def emptyDisk : Disk :=
  { csv := fun _ => none, journal := fun _ => none }

/-- Write (create or truncate) the CSV file of a date. -/
def Disk.writeCsv (disk : Disk) (date : CalDate)
    (records : List (List Field)) : Disk :=
  { disk with csv := fun d => if d = date then some records else disk.csv d }

/-- Write (create or overwrite) the journal file of a date. -/
def Disk.writeJournal (disk : Disk) (date : CalDate) (content : String) :
    Disk :=
  { disk with
    journal := fun d => if d = date then some content else disk.journal d }

/-- CSVManager.LoadJournal: missing file reads as the empty string. -/
def LoadJournal (disk : Disk) (date : CalDate) : String :=
  (disk.journal date).getD emptyText

/-- CSVManager.SaveDay (both implementations): writes the CSV file only when
there is at least one entry (an existing file is left as is otherwise), and
writes the journal file only when the journal is non-empty. -/
def SaveDay (disk : Disk) (day : Day) : Disk :=
  let disk1 :=
    if day.entries.length > 0 then disk.writeCsv day.date (SaveRecords day)
    else disk
  if day.journal ≠ "" then disk1.writeJournal day.date day.journal else disk1

/-- Row acceptance shared by both loaders: a record with fewer than 5 fields
or whose first field does not parse as a date is rejected (skipped); an
accepted record yields (date, description text, cad number defaulting to 0,
idr number defaulting to 0, screen time text). -/
def rowAccept : List Field → Option (CalDate × String × Rat × Rat × String)
  | f0 :: f1 :: f2 :: f3 :: f4 :: _ =>
    match f0.asDate with
    | none => none
    | some d => some (d, f1.raw, f2.asNum.getD 0, f3.asNum.getD 0, f4.raw)
  | _ => none

/-- The row loop of the Go CSVManager.LoadDay: each accepted row is added
via Day.AddEntry (which overwrites the entry screen time with the current
day screen time), and when the day screen time is still empty and the row
screen time is not, Day.SetScreenTime propagates it to the whole day.
The created counter numbers the NewEntry clock reads. -/
def loadRowsGo (t : Nat) : List (List Field) → Day → Nat → Day
  | [], day, _ => day
  | r :: rest, day, created =>
    match rowAccept r with
    | none => loadRowsGo t rest day created
    | some (d, ds, cad, idr, st) =>
      let day1 := day.AddEntry (NewEntry (t + created) d ds cad idr st)
      let day2 :=
        if day1.screenTime = "" ∧ st ≠ "" then day1.SetScreenTime st else day1
      loadRowsGo t rest day2 (created + 1)

/-- The Go csv.Reader (encoding/csv) with the default FieldsPerRecord = 0:
ReadAll succeeds only when every record has the same number of fields as the
first record; otherwise it returns ErrFieldCount and LoadDay aborts. -/
def recordsConsistent : List (List Field) → Bool
  | [] => true
  | r :: rest => rest.all fun s => s.length == r.length

/-- The error text of the Go LoadDay when ReadAll fails. -/
def csvReadErr : String := "failed to read CSV"

/-- Go CSVManager.LoadDay: a missing CSV file yields an empty day (plus the
journal); an existing file is read by csv.ReadAll (which rejects
inconsistent field counts), the header row is skipped, and the remaining
rows are folded by loadRowsGo. -/
def LoadDay (disk : Disk) (date : CalDate) (t : Nat) : Except String Day :=
  match disk.csv date with
  | none => .ok { NewDay date with journal := LoadJournal disk date }
  | some records =>
    if recordsConsistent records then
      .ok { loadRowsGo t (records.drop 1) (NewDay date) 0 with
            journal := LoadJournal disk date }
    else .error csvReadErr

/-- Go ledger.Service.GetDay: it simply delegates to CSVManager.LoadDay on
every call; the Go service keeps no cache. -/
def Service.GetDay (disk : Disk) (date : CalDate) (t : Nat) :
    Except String Day :=
  LoadDay disk date t

/-- Go ledger.Service.SaveDay: empty days are not saved. -/
def Service.SaveDay (disk : Disk) (day : Day) : Disk :=
  if day.IsEmpty then disk else Ledger.SaveDay disk day

/-- Go ledger.Service.RemoveEntry: removes the entry from the day and, when
something was removed, persists via CSVManager.SaveDay directly (bypassing
the empty-day check of Service.SaveDay).  Write errors are out of scope, so
the restore-on-error branch of the source is unreachable in the model. -/
def Service.RemoveEntry (disk : Disk) (day : Day) (entryID : String) :
    Disk × Day × Option Entry :=
  match day.RemoveEntry entryID with
  | (day1, none) => (disk, day1, none)
  | (day1, some removed) => (Ledger.SaveDay disk day1, day1, some removed)

/-- Go ledger.ActionType: exactly four constants (AddEntry, DeleteEntry,
EditEntry, SetScreenTime); the Go implementation has no SetJournal action. -/
inductive ActionType where
  | addEntry
  | deleteEntry
  | editEntry
  | setScreenTime
  deriving DecidableEq, Fintype

/-- Go ledger.UndoAction: the action struct with optional entry payloads. -/
structure UndoAction where
  type : ActionType
  date : CalDate
  entry : Option Entry := none
  oldEntry : Option Entry := none
  screenTime : String := ""
  oldScreenTime : String := ""
  description : String := ""
  deriving DecidableEq

/-- Go ledger.UndoStack: the action list (oldest first) and the maximum
size. -/
structure UndoStack where
  actions : List UndoAction
  maxSize : Nat
  deriving DecidableEq

/-- Go NewUndoStack: empty, capacity 100. -/
def NewUndoStack : UndoStack :=
  { actions := [], maxSize := 100 }

/-- Go UndoStack.Push: append, then drop the oldest action if the size
exceeds maxSize. -/
def UndoStack.Push (us : UndoStack) (action : UndoAction) : UndoStack :=
  let acts := us.actions ++ [action]
  if acts.length > us.maxSize then { us with actions := acts.drop 1 }
  else { us with actions := acts }

/-- Go UndoStack.Pop: remove and return the newest action, if any. -/
def UndoStack.Pop (us : UndoStack) : Option UndoAction × UndoStack :=
  match us.actions.getLast? with
  | none => (none, us)
  | some a => (some a, { us with actions := us.actions.dropLast })

/-- Go truncate helper for notification strings. -/
def truncate (s : String) (maxLen : Nat) : String :=
  if s.length ≤ maxLen then s else s.take (maxLen - 3) ++ "..."

/-- Notification text of PushAddEntry. -/
def addedMsg (e : Entry) : String :=
  "Added \x27" ++ truncate e.description 20 ++ "\x27"

/-- Notification text of PushDeleteEntry. -/
def deletedMsg (e : Entry) : String :=
  "Deleted \x27" ++ truncate e.description 20 ++ "\x27"

/-- Undo notification for an undone AddEntry. -/
def undoRemovedMsg (e : Entry) : String :=
  "Undo: Removed \x27" ++ truncate e.description 20 ++ "\x27"

/-- Undo notification for an undone DeleteEntry. -/
def undoRestoredMsg (e : Entry) : String :=
  "Undo: Restored \x27" ++ truncate e.description 20 ++ "\x27"

/-- Undo notification for an undone EditEntry. -/
def undoRevertedMsg (e : Entry) : String :=
  "Undo: Reverted \x27" ++ truncate e.description 20 ++ "\x27"

/-- Undo notification for an undone SetScreenTime. -/
def undoScreenTimeMsg (ost : String) : String :=
  "Undo: Restored screen time to \x27" ++ ost ++ "\x27"

/-- Go UndoStack.PushAddEntry: records a clone of the added entry. -/
def UndoStack.PushAddEntry (us : UndoStack) (date : CalDate) (entry : Entry) :
    UndoStack :=
  us.Push { type := .addEntry, date := date, entry := some entry.Clone,
            description := addedMsg entry }

/-- Go UndoStack.PushDeleteEntry: records a clone of the deleted entry. -/
def UndoStack.PushDeleteEntry (us : UndoStack) (date : CalDate)
    (entry : Entry) : UndoStack :=
  us.Push { type := .deleteEntry, date := date, entry := some entry.Clone,
            description := deletedMsg entry }

/-- The error text modelling the nil dereference a missing action payload
would be in Go (recorded actions always carry their payload). -/
def nilEntryErr : String := "nil entry"

/-- Result of a Go UndoManager.Undo call: message, the day the inverse was
applied to (the source mutates this day in place and saves it; none when the
stack was empty), the resulting disk and the remaining stack. -/
structure UndoOutcome where
  message : String
  day : Option Day
  disk : Disk
  stack : UndoStack

/-- Go UndoManager.Undo: pop the newest action, reload the affected day via
Service.GetDay (a disk read: the Go service has no cache), apply the
action-specific inverse, persist via Service.SaveDay and report a
description.  A nil entry payload would be a nil dereference in Go and is
mapped to an error; recorded actions always carry their payload. -/
def UndoManager.Undo (disk : Disk) (us : UndoStack) (t : Nat) :
    Except String UndoOutcome :=
  match us.Pop with
  | (none, us1) => .ok { message := "", day := none, disk := disk, stack := us1 }
  | (some action, us1) =>
    match Service.GetDay disk action.date t with
    | .error e => .error e
    | .ok day =>
      match action.type with
      | .addEntry =>
        match action.entry with
        | none => .error nilEntryErr
        | some e =>
          let day1 := (day.RemoveEntry e.id).1
          .ok { message := undoRemovedMsg e, day := some day1,
                disk := Service.SaveDay disk day1, stack := us1 }
      | .deleteEntry =>
        match action.entry with
        | none => .error nilEntryErr
        | some e =>
          let day1 := day.AddEntry e
          .ok { message := undoRestoredMsg e, day := some day1,
                disk := Service.SaveDay disk day1, stack := us1 }
      | .editEntry =>
        match action.oldEntry with
        | none => .error nilEntryErr
        | some oe =>
          let day1 := (day.UpdateEntry oe).1
          .ok { message := undoRevertedMsg oe, day := some day1,
                disk := Service.SaveDay disk day1, stack := us1 }
      | .setScreenTime =>
        let day1 := day.SetScreenTime action.oldScreenTime
        .ok { message := undoScreenTimeMsg action.oldScreenTime,
              day := some day1, disk := Service.SaveDay disk day1,
              stack := us1 }

/-- Push a list of actions in order (left fold of Push). -/
def pushAll (us : UndoStack) (acts : List UndoAction) : UndoStack :=
  acts.foldl UndoStack.Push us

/-- The Go delete-then-undo scenario: persist the day (as the add and edit
flows do after every mutation), record the deletion of entry e
(UndoManager.RecordDeleteEntry), delete it through Service.RemoveEntry, and
run UndoManager.Undo with load clock t. -/
def deleteUndoPipeline (disk : Disk) (day : Day) (e : Entry) (t : Nat) :
    Except String UndoOutcome :=
  let disk1 := Service.SaveDay disk day
  let stack1 := NewUndoStack.PushDeleteEntry day.date e
  let r := Service.RemoveEntry disk1 day e.id
  UndoManager.Undo r.1 stack1 t

/-- Projection of an entry to its id. -/
def entryId (e : Entry) : String := e.id

/-- Projection of an entry to the fields that do not involve screen time:
date, description, cad, idr. -/
def coreOf (e : Entry) : CalDate × String × Rat × Rat :=
  (e.date, e.description, e.cad, e.idr)

/-- The same projection on an accepted row. -/
def coreOfRow (c : CalDate × String × Rat × Rat × String) :
    CalDate × String × Rat × Rat :=
  (c.1, c.2.1, c.2.2.1, c.2.2.2.1)

/-- The first non-empty screen-time text among the accepted rows (the value
the loaders propagate to the whole day when the day starts with an empty
screen time). -/
def firstStAux : List (List Field) → String
  | [] => ""
  | r :: rest =>
    match rowAccept r with
    | none => firstStAux rest
    | some (_, _, _, _, st) => if st ≠ "" then st else firstStAux rest

/-- The ids generated for the accepted rows, clock reads starting at
t + created. -/
def rowIdsFrom (t : Nat) : Nat → List (List Field) → List String
  | _, [] => []
  | created, r :: rest =>
    match rowAccept r with
    | none => rowIdsFrom t created rest
    | some (_, ds, _, _, _) =>
      genId (t + created) ds :: rowIdsFrom t (created + 1) rest

/-- The ids freshly generated when a saved entry list is reloaded, clock
reads starting at t. -/
def genIdsFrom (t : Nat) : List Entry → List String
  | [] => []
  | e :: rest => genId t e.description :: genIdsFrom (t + 1) rest

/-- Reassign all entry ids of a day (used to state that SaveDay persists no
id column: the written records are independent of the ids). -/
def reassignIds (f : String → String) (day : Day) : Day :=
  { day with entries := day.entries.map fun e => { e with id := f e.id } }

/-- The round-trip comparison of the spec: description, cad formatted to two
decimals (compared as cents), idr rounded to integer. -/
def c1proj (e : Entry) : String × Int × Int :=
  (e.description, cents e.cad, round e.idr)

end Ledger

namespace Ledger.Ts

/-- TS MAX_STACK_SIZE. -/
def MAX_STACK_SIZE : Nat := 100

/-- TS ActionType: exactly five members, including SetJournal. -/
inductive ActionType where
  | addEntry
  | deleteEntry
  | editEntry
  | setScreenTime
  | setJournal
  deriving DecidableEq, Fintype

/-- TS UndoAction: all payload fields are optional in the source. -/
structure UndoAction where
  type : ActionType
  date : CalDate
  entry : Option Entry := none
  oldEntry : Option Entry := none
  screenTime : Option String := none
  oldScreenTime : Option String := none
  journal : Option String := none
  oldJournal : Option String := none
  description : String := ""
  deriving DecidableEq

/-- TS UndoStack.push on the underlying array: append, then shift out the
oldest when the size exceeds MAX_STACK_SIZE. -/
def tsPush (acts : List UndoAction) (a : UndoAction) : List UndoAction :=
  let acts1 := acts ++ [a]
  if acts1.length > MAX_STACK_SIZE then acts1.drop 1 else acts1

/-- TS LedgerService.getCacheKey: template string from getFullYear,
getMonth (zero-based) and getDate. -/
def getCacheKey (d : CalDate) : String :=
  toString d.year ++ "-" ++ toString (d.month - 1) ++ "-" ++ toString d.day

/-- Map.get on the day cache, modelled over an association list in which the
most recent binding of a key shadows older ones. -/
def lookupCache (cache : List (String × Day)) (k : String) : Option Day :=
  (cache.find? fun p => p.1 == k).map fun p => p.2

/-- Map.set on the day cache. -/
def setCache (cache : List (String × Day)) (k : String) (v : Day) :
    List (String × Day) :=
  (k, v) :: cache

/-- The row loop of the TS CSVManager.loadDay: accepted rows are pushed
directly onto the entry array, keeping the screen-time text of the row
itself (unlike Go Day.AddEntry there is no overwrite on push); when the day
screen time is still empty and the row screen time is not, it is propagated
to the day and to every entry collected so far. -/
def tsLoadRows (t : Nat) : List (List Field) → Day → Nat → Day
  | [], day, _ => day
  | r :: rest, day, created =>
    match rowAccept r with
    | none => tsLoadRows t rest day created
    | some (d, ds, cad, idr, st) =>
      let day1 := { day with
        entries := day.entries ++ [NewEntry (t + created) d ds cad idr st] }
      let day2 :=
        if day1.screenTime = "" ∧ st ≠ "" then
          { day1 with
            screenTime := st,
            entries := day1.entries.map fun e => { e with screenTime := st } }
        else day1
      tsLoadRows t rest day2 (created + 1)

/-- TS CSVManager.loadDay: the line-by-line parser skips malformed rows
locally and never aborts the load of an existing file; the header line is
skipped; the journal is loaded alongside. -/
def tsLoadDay (disk : Disk) (date : CalDate) (t : Nat) : Day :=
  match disk.csv date with
  | none => { NewDay date with journal := LoadJournal disk date }
  | some records =>
    { tsLoadRows t (records.drop 1) (NewDay date) 0 with
      journal := LoadJournal disk date }

/-- Result of a TS LedgerService.getDay call: the day, the updated cache,
and whether the day store (disk) was read. -/
structure GetDayResult where
  day : Day
  cache : List (String × Day)
  fromStore : Bool
  deriving DecidableEq

/-- TS LedgerService.getDay: return the cached day if present; otherwise
load from disk, cache the result, and return it. -/
def getDay (cache : List (String × Day)) (disk : Disk) (date : CalDate)
    (t : Nat) : GetDayResult :=
  match lookupCache cache (getCacheKey date) with
  | some cached => { day := cached, cache := cache, fromStore := false }
  | none =>
    let day := tsLoadDay disk date t
    { day := day, cache := setCache cache (getCacheKey date) day,
      fromStore := true }

/-- TS LedgerService.saveDay: update the cache entry, then persist via the
CSV manager (same record semantics as the Go SaveDay). -/
def saveDay (cache : List (String × Day)) (disk : Disk) (day : Day) :
    List (String × Day) × Disk :=
  (setCache cache (getCacheKey day.date) day, SaveDay disk day)

/-- State of the TS undo manager together with its ledger service. -/
structure TsState where
  dayCache : List (String × Day)
  disk : Disk
  stack : List UndoAction

/-- TS undo notification for an undone SetJournal. -/
def undoJournalMsg : String := "Undo: Restored journal"

/-- Result of a TS UndoManager.undo call: the returned message (null when
nothing was undone or a payload was missing), the day the inverse was
applied to, and the resulting state. -/
structure TsUndoOutcome where
  message : Option String
  day : Option Day
  state : TsState

/-- TS UndoManager.undo: pop the newest action, obtain the affected day via
the (caching) ledger service, apply the action-specific inverse, persist via
the service, and return a description; missing payloads fall through and
return null. -/
def undo (s : TsState) (t : Nat) : TsUndoOutcome :=
  match s.stack.getLast? with
  | none => { message := none, day := none, state := s }
  | some action =>
    let stack1 := s.stack.dropLast
    let g := getDay s.dayCache s.disk action.date t
    match action.type with
    | .addEntry =>
      match action.entry with
      | some e =>
        let day1 := { g.day with entries := (removeFirst e.id g.day.entries).1 }
        let sv := saveDay g.cache s.disk day1
        { message := some (undoRemovedMsg e), day := some day1,
          state := { dayCache := sv.1, disk := sv.2, stack := stack1 } }
      | none =>
        { message := none, day := none,
          state := { dayCache := g.cache, disk := s.disk, stack := stack1 } }
    | .deleteEntry =>
      match action.entry with
      | some e =>
        let day1 := { g.day with entries := g.day.entries ++ [e] }
        let sv := saveDay g.cache s.disk day1
        { message := some (undoRestoredMsg e), day := some day1,
          state := { dayCache := sv.1, disk := sv.2, stack := stack1 } }
      | none =>
        { message := none, day := none,
          state := { dayCache := g.cache, disk := s.disk, stack := stack1 } }
    | .editEntry =>
      match action.oldEntry with
      | some oe =>
        let day1 := { g.day with entries := (replaceById oe g.day.entries).1 }
        let sv := saveDay g.cache s.disk day1
        { message := some (undoRevertedMsg oe), day := some day1,
          state := { dayCache := sv.1, disk := sv.2, stack := stack1 } }
      | none =>
        { message := none, day := none,
          state := { dayCache := g.cache, disk := s.disk, stack := stack1 } }
    | .setScreenTime =>
      match action.oldScreenTime with
      | some ost =>
        let day1 := { g.day with
          screenTime := ost,
          entries := g.day.entries.map fun e => { e with screenTime := ost } }
        let sv := saveDay g.cache s.disk day1
        { message := some (undoScreenTimeMsg ost), day := some day1,
          state := { dayCache := sv.1, disk := sv.2, stack := stack1 } }
      | none =>
        { message := none, day := none,
          state := { dayCache := g.cache, disk := s.disk, stack := stack1 } }
    | .setJournal =>
      match action.oldJournal with
      | some oj =>
        let day1 := { g.day with journal := oj }
        let sv := saveDay g.cache s.disk day1
        { message := some undoJournalMsg, day := some day1,
          state := { dayCache := sv.1, disk := sv.2, stack := stack1 } }
      | none =>
        { message := none, day := none,
          state := { dayCache := g.cache, disk := s.disk, stack := stack1 } }

/-- TS UndoManager.recordSetJournal (via UndoStack.pushSetJournal). -/
def recordSetJournal (s : TsState) (date : CalDate) (oldJ newJ : String) :
    TsState :=
  { s with stack := tsPush s.stack (
      { type := .setJournal, date := date, journal := some newJ,
        oldJournal := some oldJ, description := "Updated journal" }) }

end Ledger.Ts

namespace Currency

/-- currency.RateCache: the cached CAD to IDR rate and the last-updated
time.  The Go zero time value and the TS empty string are modelled as none;
only the calendar date of the timestamp is observable in the modelled
formatting. -/
structure RateCache where
  CADToIDR : Rat
  LastUpdated : Option Ledger.CalDate
  deriving DecidableEq

/-- currency.DefaultCADToIDR, the hardcoded fallback rate. -/
def DefaultCADToIDR : Rat := 11800

/-- The cache value substituted when the cache file is missing or does not
parse. -/
def defaultCache : RateCache :=
  { CADToIDR := DefaultCADToIDR, LastUpdated := none }

/-- Converter.loadCache: the persisted cache file is either absent (none),
present but failing to unmarshal (some none), or parsed (some (some rc));
the first two cases substitute the default rate with the zero time. -/
def loadCache : Option (Option RateCache) → RateCache
  | none => defaultCache
  | some none => defaultCache
  | some (some rc) => rc

/-- The converter state: the in-memory cache and the offline flag (the last
error is not observable in any modelled claim). -/
structure Converter where
  cache : RateCache
  offline : Bool
  deriving DecidableEq

/-- currency.NewConverter: loads the cache file best-effort and starts with
the offline flag cleared. -/
def NewConverter (file : Option (Option RateCache)) : Converter :=
  { cache := loadCache file, offline := false }

/-- Converter.CADToIDR. -/
def CADToIDR (c : Converter) (cad : Rat) : Rat :=
  cad * c.cache.CADToIDR

/-- Converter.IDRToCAD: returns 0 instead of dividing when the cached rate
is zero. -/
def IDRToCAD (c : Converter) (idr : Rat) : Rat :=
  if c.cache.CADToIDR = 0 then 0 else idr / c.cache.CADToIDR

/-- Converter.GetIDRToCADRate: same zero guard. -/
def GetIDRToCADRate (c : Converter) : Rat :=
  if c.cache.CADToIDR = 0 then 0 else 1 / c.cache.CADToIDR

/-- A successful Converter.RefreshRate: overwrite the cache with the fetched
rate and the current time, clear the offline flag (persisting the cache file
is outside the modelled state). -/
def RefreshRateSuccess (rate : Rat) (now : Ledger.CalDate) : Converter :=
  { cache := { CADToIDR := rate, LastUpdated := some now }, offline := false }

/-- A failed Converter.RefreshRate: set the offline flag and leave the cache
untouched. -/
def RefreshRateFailure (c : Converter) : Converter :=
  { c with offline := true }

/-- Month-name text of the Go layout token Jan / the TS shortMonths table. -/
def shortMonthName (m : Nat) : String :=
  match m with
  | 1 => "Jan"
  | 2 => "Feb"
  | 3 => "Mar"
  | 4 => "Apr"
  | 5 => "May"
  | 6 => "Jun"
  | 7 => "Jul"
  | 8 => "Aug"
  | 9 => "Sep"
  | 10 => "Oct"
  | 11 => "Nov"
  | 12 => "Dec"
  | _ => ""

/-- The Jan 2 formatting of a date. -/
def fmtMonthDay (d : Ledger.CalDate) : String :=
  shortMonthName d.month ++ " " ++ toString d.day

/-- The Jan 2 formatting applied to the stored timestamp; the Go zero time
formats as Jan 1 (January 1 of year 1). -/
def fmtJan2 : Option Ledger.CalDate → String
  | none => "Jan 1"
  | some d => fmtMonthDay d

/-- The %.0f formatting of the rate. -/
def fmtRate0 (q : Rat) : String := toString (round q : Int)

/-- Converter.GetLastUpdatedString: the never sentinel for the zero time,
otherwise the formatted timestamp (the full Go layout includes year and
time of day; the model keeps month, day and year). -/
def GetLastUpdatedString (c : Converter) : String :=
  match c.cache.LastUpdated with
  | none => "never (using default rate)"
  | some d => fmtMonthDay d ++ ", " ++ toString d.year

/-- Converter.GetStatusMessage: three cases following the Go source; note
that the non-offline branch is taken after construction (the offline flag
starts false) and does not mention never. -/
def GetStatusMessage (c : Converter) : String :=
  if c.offline then
    match c.cache.LastUpdated with
    | none =>
      "⚠ Offline - using default rate (1 CAD = " ++
        fmtRate0 c.cache.CADToIDR ++ " IDR)"
    | some d => "⚠ Offline - using cached rate from " ++ fmtMonthDay d
  else
    "Rate: 1 CAD = " ++ fmtRate0 c.cache.CADToIDR ++ " IDR (updated " ++
      fmtJan2 c.cache.LastUpdated ++ ")"

end Currency

namespace Ledger

/-- Substring test on character lists, used to state that a message does or
does not contain a word. -/
def isPrefixChars : List Char → List Char → Bool
  | [], _ => true
  | _ :: _, [] => false
  | a :: as, b :: bs => a == b && isPrefixChars as bs

/-- Substring occurrence test on character lists. -/
def containsChars (pat : List Char) : List Char → Bool
  | [] => pat.isEmpty
  | c :: rest => isPrefixChars pat (c :: rest) || containsChars pat rest

/-- Whether the string s contains pat as a substring. -/
def strContains (s pat : String) : Bool :=
  containsChars pat.data s.data

/-- The word whose presence in status strings the spec talks about. -/
def neverWord : String := "never"

end Ledger

section Fixtures

open Ledger

/-- A sample date used by the concrete scenarios. -/
def fixDate : CalDate := { year := 2025, month := 1, day := 15 }

/-- An entry previously saved on disk (stale-file scenarios). -/
def c1cOldEntry : Entry :=
  { id := "a1", date := fixDate, description := "Coffee", cad := 4,
    idr := 53100, screenTime := "1h" }

/-- The day whose earlier save left the stale CSV file behind. -/
def c1cOldDay : Day :=
  { date := fixDate, entries := [c1cOldEntry], screenTime := "1h",
    journal := "" }

/-- A disk carrying the stale CSV file for fixDate. -/
def c1cDisk : Disk := SaveDay emptyDisk c1cOldDay

/-- An entry-less day with a non-empty journal for the same date. -/
def c1cDay : Day :=
  { date := fixDate, entries := [], screenTime := "", journal := "j" }

/-- The round-trip witness entry (fractional cad exercising the 2-decimal
formatting). -/
def c1wEntry : Entry :=
  { id := "w1", date := fixDate, description := "Tea", cad := 9 / 2,
    idr := 53100, screenTime := "1h" }

/-- The round-trip witness day. -/
def c1wDay : Day :=
  { date := fixDate, entries := [c1wEntry], screenTime := "1h",
    journal := "j" }

/-- A day with one Coffee entry whose save produces the disk read twice by
the Go service in the C2 scenario. -/
def c2cDay : Day :=
  { date := fixDate,
    entries := [{ id := "b1", date := fixDate, description := "Coffee",
                  cad := 4, idr := 10, screenTime := "" }],
    screenTime := "", journal := "" }

/-- The disk holding the saved Coffee day. -/
def c2cDisk : Disk := SaveDay emptyDisk c2cDay

/-- A cached day for the TS cache-hit witness. -/
def c2wDay : Day :=
  { date := fixDate, entries := [], screenTime := "", journal := "hello" }

/-- A TS day cache already holding fixDate. -/
def c2wCache : List (String × Day) := [(Ts.getCacheKey fixDate, c2wDay)]

/-- The C4 counterexample entry: its screen time differs from the screen
time of its day. -/
def c4cEntry : Entry :=
  { id := "e1", date := fixDate, description := "Lunch", cad := 2,
    idr := 10, screenTime := "3h" }

/-- The C4 counterexample day: empty day-level screen time. -/
def c4cDay : Day :=
  { date := fixDate, entries := [c4cEntry], screenTime := "", journal := "" }

/-- The C4 witness entry: carries the screen time of its day. -/
def c4wEntry : Entry :=
  { id := "e2", date := fixDate, description := "Dinner", cad := 3,
    idr := 20, screenTime := "2h" }

/-- The C4 witness day. -/
def c4wDay : Day :=
  { date := fixDate, entries := [c4wEntry], screenTime := "2h",
    journal := "" }

/-- The description word used by the concrete scenarios. -/
def coffeeWord : String := "Coffee"

/-- The screen-time word used by the concrete scenarios. -/
def oneHourWord : String := "1h"

/-- The C6 well-formed data row (after the header). -/
def c6goodRow : List Field :=
  [dateField fixDate, textField coffeeWord, cadField 4, idrField 53100,
   textField oneHourWord]

/-- The C6 malformed row: only three fields. -/
def c6shortRow : List Field :=
  [{ raw := "x", asDate := none, asNum := none },
   { raw := "y", asDate := none, asNum := none },
   { raw := "z", asDate := none, asNum := none }]

/-- The C6 CSV file: header, one good row, one short row. -/
def c6records : List (List Field) :=
  [csvHeaderRecord, c6goodRow, c6shortRow]

/-- The C6 disk holding that file. -/
def c6disk : Disk := emptyDisk.writeCsv fixDate c6records

/-- The C9 witness entry, recorded by an AddEntry action whose entry no
longer exists in the day. -/
def c9wEntry : Entry :=
  { id := "x9", date := fixDate, description := "Snack", cad := 1,
    idr := 2, screenTime := "" }

/-- The C10 witness entry with a pre-save id distinct from any freshly
generated one. -/
def c10wEntry : Entry :=
  { id := "old-id", date := fixDate, description := "Coffee", cad := 4,
    idr := 10, screenTime := "1h" }

/-- The C10 witness day. -/
def c10wDay : Day :=
  { date := fixDate, entries := [c10wEntry], screenTime := "1h",
    journal := "" }

/-- 101 distinct actions for the stack-bound witness. -/
def c5wActs : List UndoAction :=
  (List.range 101).map fun i =>
    { type := .addEntry, date := fixDate, description := toString i }

/-- A single action for the push-invariant witness. -/
def c5wAct : UndoAction :=
  { type := .addEntry, date := fixDate }

end Fixtures

open Ledger

@[simp]
theorem emptyText_eq : emptyText = "" := rfl

theorem coreOf_setSt (e : Entry) (s : String) :
    coreOf { e with screenTime := s } = coreOf e := rfl

theorem coreOf_newEntry (t : Nat) (d : CalDate) (ds : String) (cad idr : Rat)
    (st st2 : String) :
    coreOf { NewEntry t d ds cad idr st with screenTime := st2 } =
      (d, ds, cad, idr) := rfl

theorem entries_setScreenTime (d : Day) (s : String) :
    (d.SetScreenTime s).entries = d.entries.map fun e =>
      { e with screenTime := s } := rfl

theorem map_coreOf_overrideSt (l : List Entry) (s : String) :
    (l.map fun e => { e with screenTime := s }).map coreOf = l.map coreOf := by
  simp only [List.map_map]
  rfl

theorem map_coreOf_setScreenTime (d : Day) (s : String) :
    (d.SetScreenTime s).entries.map coreOf = d.entries.map coreOf := by
  rw [entries_setScreenTime]
  exact map_coreOf_overrideSt d.entries s

/-- Characterization of the Go load loop on the screen-time-independent
entry fields: the accepted rows are appended in order, each contributing its
parsed date, raw description, and numeric fields defaulted to 0. -/
theorem loadRowsGo_core (t : Nat) :
    ∀ (rows : List (List Field)) (day : Day) (created : Nat),
      (loadRowsGo t rows day created).entries.map coreOf =
        day.entries.map coreOf ++ (rows.filterMap rowAccept).map coreOfRow := by
  intro rows
  induction rows with
  | nil => intro day created; simp [loadRowsGo]
  | cons r rest ih =>
    intro day created
    cases h : rowAccept r with
    | none => simp [loadRowsGo, h, ih]
    | some c =>
      obtain ⟨d, ds, cad, idr, st⟩ := c
      simp only [loadRowsGo, h, ih]
      by_cases hst : (day.AddEntry (NewEntry (t + created) d ds cad idr st)).screenTime = "" ∧ st ≠ ""
      · simp only [if_pos hst, map_coreOf_setScreenTime]
        simp [Day.AddEntry, coreOfRow, coreOf, NewEntry, List.filterMap_cons, h]
      · simp only [if_neg hst]
        simp [Day.AddEntry, coreOfRow, coreOf, NewEntry, List.filterMap_cons, h]

/-- Characterization of the TS load loop on the same projection: identical
row acceptance and ordering. -/
theorem tsLoadRows_core (t : Nat) :
    ∀ (rows : List (List Field)) (day : Day) (created : Nat),
      (Ts.tsLoadRows t rows day created).entries.map coreOf =
        day.entries.map coreOf ++ (rows.filterMap rowAccept).map coreOfRow := by
  intro rows
  induction rows with
  | nil => intro day created; simp [Ts.tsLoadRows]
  | cons r rest ih =>
    intro day created
    cases h : rowAccept r with
    | none => simp [Ts.tsLoadRows, h, ih]
    | some c =>
      obtain ⟨d, ds, cad, idr, st⟩ := c
      simp only [Ts.tsLoadRows, h]
      by_cases hst : day.screenTime = "" ∧ ¬st = ""
      · rw [if_pos hst, ih]
        simp [coreOfRow, coreOf, NewEntry, List.filterMap_cons, h,
              map_coreOf_overrideSt]
      · rw [if_neg hst, ih]
        simp [coreOfRow, coreOf, NewEntry, List.filterMap_cons, h]

/-- The ids of the entries produced by the Go load loop: all freshly
generated from the clock and the row descriptions. -/
theorem loadRowsGo_ids (t : Nat) :
    ∀ (rows : List (List Field)) (day : Day) (created : Nat),
      (loadRowsGo t rows day created).entries.map entryId =
        day.entries.map entryId ++ rowIdsFrom t created rows := by
  intro rows
  induction rows with
  | nil => intro day created; simp [loadRowsGo, rowIdsFrom]
  | cons r rest ih =>
    intro day created
    cases h : rowAccept r with
    | none => simp [loadRowsGo, rowIdsFrom, h, ih]
    | some c =>
      obtain ⟨d, ds, cad, idr, st⟩ := c
      simp only [loadRowsGo, rowIdsFrom, h, ih]
      by_cases hst : (day.AddEntry (NewEntry (t + created) d ds cad idr st)).screenTime = "" ∧ st ≠ ""
      · simp only [if_pos hst]
        simp [Day.AddEntry, Day.SetScreenTime, entryId, NewEntry]
      · simp only [if_neg hst]
        simp [Day.AddEntry, entryId, NewEntry]

/-- The Go load loop never changes the day screen time once it is
non-empty. -/
theorem loadRowsGo_st_ne (t : Nat) :
    ∀ (rows : List (List Field)) (day : Day) (created : Nat),
      day.screenTime ≠ "" →
      (loadRowsGo t rows day created).screenTime = day.screenTime := by
  intro rows
  induction rows with
  | nil => intro day created _; simp [loadRowsGo]
  | cons r rest ih =>
    intro day created hne
    cases h : rowAccept r with
    | none => simp [loadRowsGo, h, ih _ _ hne]
    | some c =>
      obtain ⟨d, ds, cad, idr, st⟩ := c
      have hadd : (day.AddEntry (NewEntry (t + created) d ds cad idr st)).screenTime = day.screenTime := rfl
      simp only [loadRowsGo, h]
      rw [if_neg]
      · exact ih _ _ (by simpa [hadd] using hne)
      · intro hc
        exact hne (by simpa [hadd] using hc.1)

/-- Starting from an empty day screen time, the Go load loop ends with the
first non-empty screen-time text among the accepted rows. -/
theorem loadRowsGo_st_eval (t : Nat) :
    ∀ (rows : List (List Field)) (day : Day) (created : Nat),
      day.screenTime = "" →
      (loadRowsGo t rows day created).screenTime = firstStAux rows := by
  intro rows
  induction rows with
  | nil => intro day created he; simpa [loadRowsGo, firstStAux] using he
  | cons r rest ih =>
    intro day created he
    cases h : rowAccept r with
    | none => simp [loadRowsGo, firstStAux, h, ih _ _ he]
    | some c =>
      obtain ⟨d, ds, cad, idr, st⟩ := c
      have hadd : (day.AddEntry (NewEntry (t + created) d ds cad idr st)).screenTime = day.screenTime := rfl
      simp only [loadRowsGo, firstStAux, h]
      by_cases hst : st = ""
      · rw [if_neg (by simp [hadd, hst]), if_neg (by simp [hst])]
        exact ih _ _ (by simpa [hadd] using he)
      · rw [if_pos (by simp [hadd, he, hst]), if_pos hst]
        have : ((day.AddEntry (NewEntry (t + created) d ds cad idr st)).SetScreenTime st).screenTime = st := rfl
        rw [loadRowsGo_st_ne t rest _ _ (by simpa [this] using hst), this]

theorem cents_round2 (q : Rat) : cents (round2 q) = cents q := by
  unfold cents round2 cents
  rw [div_mul_cancel₀ _ (by norm_num : (100 : Rat) ≠ 0), round_intCast]

theorem round_roundInt (q : Rat) : round (roundInt q) = round q := by
  unfold roundInt
  rw [round_intCast]

theorem rowAccept_entryRecord (day : Day) (e : Entry) :
    rowAccept (entryRecord day e) =
      some (e.date, e.description, round2 e.cad, roundInt e.idr,
            day.screenTime) := rfl

theorem length_entryRecord (day : Day) (e : Entry) :
    (entryRecord day e).length = 5 := rfl

theorem recordsConsistent_saveRecords (day : Day) :
    recordsConsistent (SaveRecords day) = true := by
  simp only [SaveRecords, recordsConsistent, List.all_eq_true]
  intro r hr
  obtain ⟨e, _, rfl⟩ := List.mem_map.mp hr
  rfl

theorem saveRecords_drop_one (day : Day) :
    (SaveRecords day).drop 1 = day.entries.map (entryRecord day) := rfl

theorem filterMap_rowAccept_rows (day : Day) :
    ∀ l : List Entry,
      (l.map (entryRecord day)).filterMap rowAccept =
        l.map fun e =>
          (e.date, e.description, round2 e.cad, roundInt e.idr,
           day.screenTime) := by
  intro l
  induction l with
  | nil => rfl
  | cons e rest ih =>
    simp [List.filterMap_cons, rowAccept_entryRecord, ih]

theorem firstStAux_saveRows (day : Day) :
    firstStAux (day.entries.map (entryRecord day)) =
      if day.entries = [] then emptyText else
        if day.screenTime = "" then emptyText else day.screenTime := by
  cases h : day.entries with
  | nil => simp [firstStAux]
  | cons e rest =>
    simp only [List.map_cons, firstStAux, rowAccept_entryRecord]
    by_cases hst : day.screenTime = ""
    · rw [if_neg (by simp [hst]), if_neg (by simp [h]), if_pos hst]
      clear h
      induction rest with
      | nil => simp [firstStAux]
      | cons x xs ihx =>
        simpa [firstStAux, rowAccept_entryRecord, hst] using ihx
    · rw [if_pos (by simpa using hst), if_neg (by simp [h]), if_neg hst]

theorem rowIdsFrom_saveRows (t : Nat) (day : Day) :
    ∀ (l : List Entry) (created : Nat),
      rowIdsFrom t created (l.map (entryRecord day)) =
        genIdsFrom (t + created) l := by
  intro l
  induction l with
  | nil => intro created; simp [rowIdsFrom, genIdsFrom]
  | cons e rest ih =>
    intro created
    have harith : t + (created + 1) = t + created + 1 := by omega
    simp [List.map_cons, rowIdsFrom, rowAccept_entryRecord, genIdsFrom,
      ih (created + 1), harith]

theorem Push_maxSize (us : UndoStack) (a : UndoAction) :
    (us.Push a).maxSize = us.maxSize := by
  simp only [UndoStack.Push]
  split <;> rfl

theorem Pop_Push (us : UndoStack) (a : UndoAction) (hm : 1 ≤ us.maxSize) :
    ∃ us1, (us.Push a).Pop = (some a, us1) := by
  simp only [UndoStack.Push]
  split
  · next hlen =>
    have hne : us.actions ≠ [] := by
      intro hnil
      rw [hnil] at hlen
      simp at hlen
      omega
    obtain ⟨x, xs, hx⟩ := List.exists_cons_of_ne_nil hne
    rw [hx]
    simp only [UndoStack.Pop, List.cons_append, List.drop_succ_cons,
      List.drop_zero, List.getLast?_append_cons]
    exact ⟨_, rfl⟩
  · simp only [UndoStack.Pop, List.getLast?_append_cons]
    exact ⟨_, rfl⟩

theorem pushAll_maxSize :
    ∀ (acts : List UndoAction) (us : UndoStack),
      (pushAll us acts).maxSize = us.maxSize := by
  intro acts
  induction acts with
  | nil => intro us; rfl
  | cons a rest ih =>
    intro us
    simp only [pushAll, List.foldl_cons]
    rw [show List.foldl UndoStack.Push (us.Push a) rest =
          pushAll (us.Push a) rest from rfl, ih, Push_maxSize]

theorem pushAll_under :
    ∀ (acts : List UndoAction) (us : UndoStack),
      us.actions.length + acts.length ≤ us.maxSize →
      (pushAll us acts).actions = us.actions ++ acts := by
  intro acts
  induction acts with
  | nil => intro us _; simp [pushAll]
  | cons a rest ih =>
    intro us hlen
    simp only [List.length_cons] at hlen
    have hpush : (us.Push a).actions = us.actions ++ [a] := by
      simp only [UndoStack.Push]
      rw [if_neg (by simp; omega)]
    have hms : (us.Push a).maxSize = us.maxSize := Push_maxSize us a
    simp only [pushAll, List.foldl_cons]
    rw [show List.foldl UndoStack.Push (us.Push a) rest =
          pushAll (us.Push a) rest from rfl,
        ih (us.Push a) (by rw [hpush, hms]; simp; omega), hpush]
    simp

theorem saveDay_csv_at (disk : Disk) (day : Day) :
    (SaveDay disk day).csv day.date =
      if day.entries.length > 0 then some (SaveRecords day)
      else disk.csv day.date := by
  simp only [SaveDay, Disk.writeCsv, Disk.writeJournal]
  split <;> split <;> simp

theorem saveDay_journal_at (disk : Disk) (day : Day) :
    (SaveDay disk day).journal day.date =
      if day.journal ≠ "" then some day.journal
      else disk.journal day.date := by
  simp only [SaveDay, Disk.writeCsv, Disk.writeJournal]
  split <;> split <;> simp_all

theorem removeFirst_of_not_mem (id : String) :
    ∀ l : List Entry, id ∉ l.map entryId → removeFirst id l = (l, none) := by
  intro l
  induction l with
  | nil => intro _; rfl
  | cons e rest ih =>
    intro hmem
    simp only [List.map_cons, List.mem_cons, entryId] at hmem
    push_neg at hmem
    simp only [removeFirst, ih hmem.2]
    rw [if_neg (Ne.symm hmem.1)]

/-- The Go load loop preserves the invariant that every entry carries the
day screen time. -/
theorem loadRowsGo_st_all (t : Nat) :
    ∀ (rows : List (List Field)) (day : Day) (created : Nat),
      (∀ e ∈ day.entries, e.screenTime = day.screenTime) →
      ∀ e ∈ (loadRowsGo t rows day created).entries,
        e.screenTime = (loadRowsGo t rows day created).screenTime := by
  intro rows
  induction rows with
  | nil => intro day created hinv; simpa [loadRowsGo] using hinv
  | cons r rest ih =>
    intro day created hinv
    cases h : rowAccept r with
    | none => simpa [loadRowsGo, h] using ih _ _ hinv
    | some c =>
      obtain ⟨d, ds, cad, idr, st⟩ := c
      simp only [loadRowsGo, h]
      by_cases hst : (day.AddEntry (NewEntry (t + created) d ds cad idr st)).screenTime = "" ∧ st ≠ ""
      · rw [if_pos hst]
        apply ih
        intro e he
        simp only [Day.SetScreenTime, Day.AddEntry, List.map_append, List.mem_append,
          List.mem_map] at he ⊢
        rcases he with ⟨x, _, rfl⟩ | ⟨x, _, rfl⟩ <;> rfl
      · rw [if_neg hst]
        apply ih
        intro e he
        simp only [Day.AddEntry, List.mem_append, List.mem_singleton] at he
        rcases he with he | rfl
        · exact hinv e he
        · rfl

/-- Loading a date whose CSV file holds exactly what SaveDay wrote for a day:
the load succeeds, the screen-time-independent fields come back rounded to
the written precision in order, the ids are freshly generated from the clock
and the descriptions, the day screen time comes back (empty stays empty),
every loaded entry carries the loaded day screen time, and the journal is
whatever the journal file holds. -/
theorem loadDay_of_saved (disk : Disk) (dt : CalDate) (day : Day) (t : Nat)
    (hcsv : disk.csv dt = some (SaveRecords day)) :
    ∃ loaded, LoadDay disk dt t = .ok loaded ∧
      loaded.entries.map coreOf = day.entries.map (fun e =>
        (e.date, e.description, round2 e.cad, roundInt e.idr)) ∧
      loaded.entries.map entryId = genIdsFrom t day.entries ∧
      loaded.screenTime =
        (if day.entries = [] then emptyText else
          if day.screenTime = "" then emptyText else day.screenTime) ∧
      (∀ e ∈ loaded.entries, e.screenTime = loaded.screenTime) ∧
      loaded.journal = LoadJournal disk dt := by
  refine ⟨{ loadRowsGo t ((SaveRecords day).drop 1) (NewDay dt) 0 with
            journal := LoadJournal disk dt }, ?_, ?_, ?_, ?_, ?_, ?_⟩
  · simp only [LoadDay, hcsv]
    rw [if_pos (recordsConsistent_saveRecords day)]
  · show (loadRowsGo t ((SaveRecords day).drop 1) (NewDay dt) 0).entries.map coreOf = _
    rw [saveRecords_drop_one, loadRowsGo_core, filterMap_rowAccept_rows]
    simp [NewDay, List.map_map, coreOfRow]
  · show (loadRowsGo t ((SaveRecords day).drop 1) (NewDay dt) 0).entries.map entryId = _
    rw [saveRecords_drop_one, loadRowsGo_ids, rowIdsFrom_saveRows]
    simp [NewDay]
  · show (loadRowsGo t ((SaveRecords day).drop 1) (NewDay dt) 0).screenTime = _
    rw [saveRecords_drop_one, loadRowsGo_st_eval t _ _ _ (by rfl),
        firstStAux_saveRows]
  · show ∀ e ∈ (loadRowsGo t ((SaveRecords day).drop 1) (NewDay dt) 0).entries,
        e.screenTime = (loadRowsGo t ((SaveRecords day).drop 1) (NewDay dt) 0).screenTime
    exact loadRowsGo_st_all t _ _ _ (by intro e he; simp [NewDay] at he)
  · rfl

theorem tsPush_getLast (acts : List Ledger.Ts.UndoAction)
    (a : Ledger.Ts.UndoAction) : (Ts.tsPush acts a).getLast? = some a := by
  simp only [Ts.tsPush]
  split
  · next hlen =>
    have hne : acts ≠ [] := by
      intro hnil
      rw [hnil] at hlen
      simp [Ts.MAX_STACK_SIZE] at hlen
    obtain ⟨x, xs, hx⟩ := List.exists_cons_of_ne_nil hne
    rw [hx]
    simp [List.getLast?_append_cons]
  · simp [List.getLast?_append_cons]

/-- C8: for every input amount, if the cached cadToIdr rate is zero then
IDRToCAD returns exactly 0 instead of dividing by zero. -/
theorem c8_idr_to_cad_zero_rate (c : Currency.Converter) (idr : Rat)
    (h : c.cache.CADToIDR = 0) : Currency.IDRToCAD c idr = 0 := by
  simp [Currency.IDRToCAD, h]

/-- C8 witness: a converter whose corrupted cache parsed to a zero rate
converts 5 IDR to exactly 0 CAD. -/
theorem c8_idr_to_cad_zero_rate_witness :
    (Currency.NewConverter (some (some { CADToIDR := 0, LastUpdated := none }))).cache.CADToIDR = 0 ∧
    Currency.IDRToCAD (Currency.NewConverter (some (some { CADToIDR := 0, LastUpdated := none }))) 5 = 0 :=
  ⟨rfl, c8_idr_to_cad_zero_rate _ 5 rfl⟩

/-- C5: every push on a 100-capacity stack preserves the at-most-100 bound,
and pushing 101 actions onto a fresh stack leaves exactly the last 100, the
discarded one being the first pushed. -/
theorem c5_undo_stack_bound :
    (∀ (us : UndoStack) (a : UndoAction), us.maxSize = 100 →
      us.actions.length ≤ 100 → (us.Push a).actions.length ≤ 100) ∧
    (∀ acts : List UndoAction, acts.length = 101 →
      (pushAll NewUndoStack acts).actions = acts.drop 1 ∧
      (pushAll NewUndoStack acts).actions.length = 100) := by
  constructor
  · intro us a hms hlen
    simp only [UndoStack.Push, hms]
    split
    · next h =>
      simp only [List.length_drop, List.length_append, List.length_singleton,
        hms] at h ⊢
      omega
    · next h =>
      simp only [List.length_append, List.length_singleton, hms,
        not_lt] at h ⊢
      omega
  · intro acts hlen
    have hne : acts ≠ [] := by
      intro hnil
      rw [hnil] at hlen
      simp at hlen
    have hsplit : acts.dropLast ++ [acts.getLast hne] = acts :=
      List.dropLast_append_getLast hne
    have h100 : acts.dropLast.length = 100 := by
      rw [List.length_dropLast, hlen]
    have hunder : (pushAll NewUndoStack acts.dropLast).actions = acts.dropLast := by
      have hb : NewUndoStack.actions.length + acts.dropLast.length ≤
          NewUndoStack.maxSize := by
        show 0 + acts.dropLast.length ≤ 100
        omega
      have := pushAll_under acts.dropLast NewUndoStack hb
      simpa [NewUndoStack] using this
    have hms : (pushAll NewUndoStack acts.dropLast).maxSize = 100 := by
      rw [pushAll_maxSize]
      rfl
    have hstep : pushAll NewUndoStack acts =
        (pushAll NewUndoStack acts.dropLast).Push (acts.getLast hne) := by
      conv_lhs => rw [← hsplit]
      simp [pushAll, List.foldl_append]
    rw [hstep]
    simp only [UndoStack.Push, hunder, hms]
    rw [if_pos (by simp [h100])]
    constructor
    · conv_rhs => rw [← hsplit]
    · simp [h100]

/-- C5 witness: a push on a fresh stack keeps the bound, and 101 concrete
actions leave the last 100 on the stack. -/
theorem c5_undo_stack_bound_witness :
    NewUndoStack.maxSize = 100 ∧ NewUndoStack.actions.length ≤ 100 ∧
    (NewUndoStack.Push c5wAct).actions.length ≤ 100 ∧
    c5wActs.length = 101 ∧
    (pushAll NewUndoStack c5wActs).actions = c5wActs.drop 1 ∧
    (pushAll NewUndoStack c5wActs).actions.length = 100 :=
  ⟨rfl, by decide,
   c5_undo_stack_bound.1 NewUndoStack c5wAct rfl (by decide),
   by simp [c5wActs], (c5_undo_stack_bound.2 c5wActs (by simp [c5wActs])).1,
   (c5_undo_stack_bound.2 c5wActs (by simp [c5wActs])).2⟩

/-- C3 counterexample: the Go ActionType is a tagged union of 4 variants,
not 5; the Go implementation has no SetJournal action and no
RecordSetJournal operation. -/
theorem c3_counterexample :
    Fintype.card Ledger.ActionType = 4 ∧ Fintype.card Ledger.ActionType ≠ 5 := by
  constructor
  · decide
  · decide

/-- C3 amended: in the TypeScript implementation, ActionType has exactly 5
variants including setJournal, and undoing a recorded setJournal action
restores the old journal value directly on the affected day. -/
theorem c3_five_variants_ts :
    Fintype.card Ledger.Ts.ActionType = 5 ∧
    (∀ (s : Ts.TsState) (dt : CalDate) (oldJ newJ : String) (t : Nat),
      ∃ d, (Ts.undo (Ts.recordSetJournal s dt oldJ newJ) t).day = some d ∧
        d.journal = oldJ ∧
        (Ts.undo (Ts.recordSetJournal s dt oldJ newJ) t).message =
          some Ts.undoJournalMsg) := by
  constructor
  · decide
  · intro s dt oldJ newJ t
    simp only [Ts.undo, Ts.recordSetJournal, tsPush_getLast]
    exact ⟨_, rfl, rfl, trivial⟩

/-- C7 counterexample: with the rate cache file missing at construction, the
status message reports the default rate but does not contain the word never
(the Go zero time formats as Jan 1 in the non-offline branch), even though
cadToIDR(1) does return 11800. -/
theorem c7_counterexample :
    strContains (Currency.GetStatusMessage (Currency.NewConverter none))
      neverWord = false ∧
    Currency.CADToIDR (Currency.NewConverter none) 1 = 11800 := by
  constructor
  · have h : round ((11800 : Rat)) = (11800 : Int) := by norm_num
    simp only [Currency.GetStatusMessage, Currency.NewConverter,
      Currency.loadCache, Currency.defaultCache, Currency.DefaultCADToIDR,
      Currency.fmtRate0, Currency.fmtJan2, h]
    decide
  · simp [Currency.CADToIDR, Currency.NewConverter, Currency.loadCache,
      Currency.defaultCache, Currency.DefaultCADToIDR]

/-- C7 amended: with the rate cache file missing at construction, it is
GetLastUpdatedString (not GetStatusMessage) that contains never, and
cadToIDR(1) returns 11800; a failed refreshRate preserves both (the cache is
untouched), and a successful refreshRate replaces the rate and the
timestamp. -/
theorem c7_missing_cache_defaults :
    strContains (Currency.GetLastUpdatedString (Currency.NewConverter none))
      neverWord = true ∧
    Currency.CADToIDR (Currency.NewConverter none) 1 = 11800 ∧
    (Currency.RefreshRateFailure (Currency.NewConverter none)).cache =
      (Currency.NewConverter none).cache ∧
    Currency.GetLastUpdatedString
        (Currency.RefreshRateFailure (Currency.NewConverter none)) =
      Currency.GetLastUpdatedString (Currency.NewConverter none) ∧
    (∀ (r : Rat) (now : CalDate),
      Currency.CADToIDR (Currency.RefreshRateSuccess r now) 1 = r ∧
      (Currency.RefreshRateSuccess r now).cache.LastUpdated = some now) := by
  refine ⟨by decide, ?_, rfl, rfl, ?_⟩
  · simp [Currency.CADToIDR, Currency.NewConverter, Currency.loadCache,
      Currency.defaultCache, Currency.DefaultCADToIDR]
  · intro r now
    exact ⟨by simp [Currency.CADToIDR, Currency.RefreshRateSuccess], rfl⟩

theorem lookupCache_setCache (c : List (String × Day)) (k : String) (v : Day) :
    Ts.lookupCache (Ts.setCache c k v) k = some v := by
  simp [Ts.lookupCache, Ts.setCache, List.find?]

/-- C2 amended: in the TypeScript implementation, getDay returns the cached
day without touching the day store when the cache holds the date; on a miss
it loads from the store, caches the result and returns it; and of two
successive getDay calls for the same date the second returns the same day
value with no store read.  (The Go Service.GetDay keeps no cache and reads
the store on every call; see the counterexample.) -/
theorem c2_ledger_cache_ts :
    (∀ (cache : List (String × Day)) (disk : Disk) (dt : CalDate) (t : Nat)
       (d : Day),
       Ts.lookupCache cache (Ts.getCacheKey dt) = some d →
       Ts.getDay cache disk dt t =
         { day := d, cache := cache, fromStore := false }) ∧
    (∀ (cache : List (String × Day)) (disk : Disk) (dt : CalDate) (t : Nat),
       Ts.lookupCache cache (Ts.getCacheKey dt) = none →
       Ts.getDay cache disk dt t =
         { day := Ts.tsLoadDay disk dt t,
           cache := Ts.setCache cache (Ts.getCacheKey dt)
                      (Ts.tsLoadDay disk dt t),
           fromStore := true }) ∧
    (∀ (cache : List (String × Day)) (disk : Disk) (dt : CalDate) (t u : Nat),
       (Ts.getDay (Ts.getDay cache disk dt t).cache disk dt u).day =
         (Ts.getDay cache disk dt t).day ∧
       (Ts.getDay (Ts.getDay cache disk dt t).cache disk dt u).fromStore =
         false) := by
  refine ⟨?_, ?_, ?_⟩
  · intro cache disk dt t d h
    simp [Ts.getDay, h]
  · intro cache disk dt t h
    simp [Ts.getDay, h]
  · intro cache disk dt t u
    cases h : Ts.lookupCache cache (Ts.getCacheKey dt) with
    | some d => simp [Ts.getDay, h]
    | none => simp [Ts.getDay, h, lookupCache_setCache]

/-- C2 witness: a cache already holding the date is returned as is with no
store read, and an empty cache misses and loads from the store. -/
theorem c2_ledger_cache_ts_witness :
    Ts.lookupCache c2wCache (Ts.getCacheKey fixDate) = some c2wDay ∧
    Ts.getDay c2wCache emptyDisk fixDate 0 =
      { day := c2wDay, cache := c2wCache, fromStore := false } ∧
    Ts.lookupCache [] (Ts.getCacheKey fixDate) = none ∧
    Ts.getDay [] emptyDisk fixDate 0 =
      { day := Ts.tsLoadDay emptyDisk fixDate 0,
        cache := Ts.setCache [] (Ts.getCacheKey fixDate)
                   (Ts.tsLoadDay emptyDisk fixDate 0),
        fromStore := true } :=
  ⟨rfl, c2_ledger_cache_ts.1 c2wCache emptyDisk fixDate 0 c2wDay rfl,
   rfl, c2_ledger_cache_ts.2.1 [] emptyDisk fixDate 0 rfl⟩

/-- C2 counterexample: the Go Service.GetDay delegates to the store on every
call, so two successive calls re-read the disk and return different day
values (the entry ids are regenerated from the clock on each load). -/
theorem c2_counterexample :
    (Service.GetDay c2cDisk fixDate 0).toOption.map
        (fun d => d.entries.map entryId) = some [genId 0 coffeeWord] ∧
    (Service.GetDay c2cDisk fixDate 1).toOption.map
        (fun d => d.entries.map entryId) = some [genId 1 coffeeWord] ∧
    genId 0 coffeeWord ≠ genId 1 coffeeWord := by
  refine ⟨?_, ?_, by decide⟩ <;>
    simp [Service.GetDay, LoadDay, c2cDisk, c2cDay, SaveDay, emptyDisk,
      Disk.writeCsv, Disk.writeJournal, SaveRecords, recordsConsistent,
      csvHeaderRecord, entryRecord, dateField, textField, cadField, idrField,
      loadRowsGo, rowAccept, NewDay, NewEntry, Day.AddEntry,
      Day.SetScreenTime, entryId, Except.toOption, coffeeWord, LoadJournal]

/-- C1 amended: for every day with a non-empty journal, provided the day has
at least one entry or no CSV file already exists for its date (SaveDay
writes no CSV file for an entry-less day and leaves an existing one as is),
SaveDay followed by LoadDay for the same date yields a day whose entry list
matches the saved one in order on description, cad to 2 decimals and idr
rounded to integer, whose every entry carries the saved day screen time
(the per-row screen_time column holds the day value, not the per-entry
value), and whose journal is identical. -/
theorem c1_round_trip (disk : Disk) (day : Day) (t : Nat)
    (hcsv : day.entries ≠ [] ∨ disk.csv day.date = none)
    (hj : day.journal ≠ "") :
    ∃ loaded, LoadDay (SaveDay disk day) day.date t = .ok loaded ∧
      loaded.entries.map c1proj = day.entries.map c1proj ∧
      (∀ e ∈ loaded.entries, e.screenTime = day.screenTime) ∧
      loaded.journal = day.journal := by
  have hjournal : LoadJournal (SaveDay disk day) day.date = day.journal := by
    simp [LoadJournal, saveDay_journal_at, hj]
  cases hent : day.entries with
  | nil =>
    have hnone : (SaveDay disk day).csv day.date = none := by
      rw [saveDay_csv_at, if_neg (by simp [hent])]
      rcases hcsv with hne | hn
      · exact absurd hent hne
      · exact hn
    refine ⟨{ NewDay day.date with
              journal := LoadJournal (SaveDay disk day) day.date },
            ?_, ?_, ?_, ?_⟩
    · simp only [LoadDay, hnone]
    · simp [NewDay, hent]
    · intro e he
      simp [NewDay] at he
    · simpa [NewDay] using hjournal
  | cons e0 rest =>
    have hcsv2 : (SaveDay disk day).csv day.date = some (SaveRecords day) := by
      rw [saveDay_csv_at, if_pos (by simp [hent])]
    obtain ⟨loaded, hload, hcore, hids, hstval, hstall, hjl⟩ :=
      loadDay_of_saved (SaveDay disk day) day.date day t hcsv2
    refine ⟨loaded, hload, ?_, ?_, ?_⟩
    · have h1 : loaded.entries.map c1proj =
          (loaded.entries.map coreOf).map fun c =>
            (c.2.1, cents c.2.2.1, round c.2.2.2) := by
        rw [List.map_map]
        rfl
      rw [h1, hcore, List.map_map, ← hent]
      apply List.map_congr_left
      intro x _
      simp [c1proj, Function.comp, cents_round2, round_roundInt]
    · intro e he
      rw [hstall e he, hstval, if_neg (by simp [hent])]
      by_cases hstz : day.screenTime = ""
      · rw [if_pos hstz, hstz]
        rfl
      · rw [if_neg hstz]
    · rw [hjl, hjournal]

/-- C1 witness: a day with one fractional-cad entry and journal j
round-trips on a fresh disk. -/
theorem c1_round_trip_witness :
    (c1wDay.entries ≠ [] ∨ emptyDisk.csv c1wDay.date = none) ∧
    c1wDay.journal ≠ "" ∧
    (∃ loaded, LoadDay (SaveDay emptyDisk c1wDay) c1wDay.date 3 = .ok loaded ∧
      loaded.entries.map c1proj = c1wDay.entries.map c1proj ∧
      (∀ e ∈ loaded.entries, e.screenTime = c1wDay.screenTime) ∧
      loaded.journal = c1wDay.journal) :=
  ⟨by simp [c1wDay], by simp [c1wDay],
   c1_round_trip emptyDisk c1wDay 3 (by simp [c1wDay]) (by simp [c1wDay])⟩

/-- C1 counterexample: saving an entry-less day (with non-empty journal)
over a disk that already holds a CSV file for the date writes no CSV file,
so the reload returns the stale entry and the loaded entry set differs from
the saved (empty) one. -/
theorem c1_counterexample :
    c1cDay.entries = [] ∧ c1cDay.journal ≠ "" ∧
    (LoadDay (SaveDay c1cDisk c1cDay) fixDate 0).toOption.map
        (fun d => d.entries.length) = some 1 := by
  refine ⟨rfl, by simp [c1cDay], ?_⟩
  simp [LoadDay, SaveDay, c1cDisk, c1cDay, c1cOldDay, c1cOldEntry, emptyDisk,
    Disk.writeCsv, Disk.writeJournal, SaveRecords, recordsConsistent,
    csvHeaderRecord, entryRecord, dateField, textField, cadField, idrField,
    loadRowsGo, rowAccept, NewDay, NewEntry, Day.AddEntry, Day.SetScreenTime,
    Except.toOption, LoadJournal]

/-- C9: undoing a recorded AddEntry whose entry id is no longer present in
the affected day removes nothing (the day is unchanged and no error is
raised) and still returns the success description. -/
theorem c9_undo_missing_add (disk : Disk) (us : UndoStack) (e : Entry)
    (dt : CalDate) (t : Nat) (d : Day)
    (hm : 1 ≤ us.maxSize)
    (hload : Service.GetDay disk dt t = .ok d)
    (hid : e.id ∉ d.entries.map entryId) :
    ∃ us1, UndoManager.Undo disk (us.PushAddEntry dt e) t =
      .ok { message := undoRemovedMsg e, day := some d,
            disk := Service.SaveDay disk d, stack := us1 } := by
  obtain ⟨us1, hpop⟩ := Pop_Push us
    { type := .addEntry, date := dt, entry := some e.Clone,
      description := addedMsg e } hm
  refine ⟨us1, ?_⟩
  have hrm : d.RemoveEntry e.Clone.id = (d, none) := by
    show d.RemoveEntry e.id = (d, none)
    simp only [Day.RemoveEntry, removeFirst_of_not_mem e.id d.entries hid]
  simp only [UndoManager.Undo, UndoStack.PushAddEntry, hpop, hload, hrm]
  rfl

/-- C9 witness: a fresh stack, an empty disk and an entry id absent from the
(empty) loaded day. -/
theorem c9_undo_missing_add_witness :
    1 ≤ NewUndoStack.maxSize ∧
    Service.GetDay emptyDisk fixDate 0 =
      .ok { date := fixDate, entries := [], screenTime := "", journal := "" } ∧
    c9wEntry.id ∉
      ({ date := fixDate, entries := [], screenTime := "",
         journal := "" } : Day).entries.map entryId ∧
    (∃ us1, UndoManager.Undo emptyDisk (NewUndoStack.PushAddEntry fixDate c9wEntry) 0 =
      .ok { message := undoRemovedMsg c9wEntry,
            day := some { date := fixDate, entries := [], screenTime := "",
                          journal := "" },
            disk := Service.SaveDay emptyDisk
              { date := fixDate, entries := [], screenTime := "",
                journal := "" },
            stack := us1 }) :=
  ⟨by decide, rfl, by simp,
   c9_undo_missing_add emptyDisk NewUndoStack c9wEntry fixDate 0 _
     (by decide) rfl (by simp)⟩

/-- C10: SaveDay persists no id column (the written records are independent
of every reassignment of the entry ids); reloading a saved day generates
each entry id afresh from the load-time clock and the description; and
whenever those fresh ids avoid the pre-save ids (as the strictly increasing
wall clock ensures in practice), every reloaded id differs from every
pre-save id and removing a reloaded day entry by any pre-save id (the undo
correlation) is a no-op. -/
theorem c10_ids_not_persisted (disk : Disk) (day : Day) (t : Nat)
    (hne : day.entries ≠ [])
    (hfresh : ∀ s ∈ genIdsFrom t day.entries, s ∉ day.entries.map entryId) :
    (∀ f, SaveRecords (reassignIds f day) = SaveRecords day) ∧
    ∃ loaded, LoadDay (SaveDay disk day) day.date t = .ok loaded ∧
      loaded.entries.map entryId = genIdsFrom t day.entries ∧
      (∀ e ∈ loaded.entries, e.id ∉ day.entries.map entryId) ∧
      (∀ oldId ∈ day.entries.map entryId,
        loaded.RemoveEntry oldId = (loaded, none)) := by
  constructor
  · intro f
    simp only [SaveRecords, reassignIds, List.map_map]
    rfl
  · have hcsv2 : (SaveDay disk day).csv day.date = some (SaveRecords day) := by
      rw [saveDay_csv_at, if_pos (by simp [List.length_pos, hne])]
    obtain ⟨loaded, hload, hcore, hids, hstval, hstall, hjl⟩ :=
      loadDay_of_saved (SaveDay disk day) day.date day t hcsv2
    refine ⟨loaded, hload, hids, ?_, ?_⟩
    · intro e he
      have hmem : e.id ∈ loaded.entries.map entryId :=
        List.mem_map_of_mem entryId he
      rw [hids] at hmem
      exact hfresh e.id hmem
    · intro oldId hold
      have hnotin : oldId ∉ loaded.entries.map entryId := by
        rw [hids]
        intro hin
        exact hfresh oldId hin hold
      show Day.RemoveEntry loaded oldId = (loaded, none)
      simp only [Day.RemoveEntry,
        removeFirst_of_not_mem oldId loaded.entries hnotin]

/-- C10 witness: a one-entry day whose stored id old-id differs from the
freshly generated 7-Coffee id. -/
theorem c10_ids_not_persisted_witness :
    c10wDay.entries ≠ [] ∧
    (∀ s ∈ genIdsFrom 7 c10wDay.entries, s ∉ c10wDay.entries.map entryId) ∧
    ((∀ f, SaveRecords (reassignIds f c10wDay) = SaveRecords c10wDay) ∧
     ∃ loaded, LoadDay (SaveDay emptyDisk c10wDay) c10wDay.date 7 = .ok loaded ∧
       loaded.entries.map entryId = genIdsFrom 7 c10wDay.entries ∧
       (∀ e ∈ loaded.entries, e.id ∉ c10wDay.entries.map entryId) ∧
       (∀ oldId ∈ c10wDay.entries.map entryId,
         loaded.RemoveEntry oldId = (loaded, none))) :=
  ⟨by simp [c10wDay], by decide,
   c10_ids_not_persisted emptyDisk c10wDay 7 (by simp [c10wDay]) (by decide)⟩

theorem removeFirst_finds (e : Entry) :
    ∀ l : List Entry, e ∈ l →
      ∃ l1 removed, removeFirst e.id l = (l1, some removed) := by
  intro l
  induction l with
  | nil => intro h; simp at h
  | cons x rest ih =>
    intro hmem
    by_cases hx : x.id = e.id
    · exact ⟨rest, x, by simp [removeFirst, hx]⟩
    · have hrest : e ∈ rest := by
        rcases List.mem_cons.mp hmem with rfl | h
        · exact absurd rfl hx
        · exact h
      obtain ⟨l1, removed, hrf⟩ := ih hrest
      exact ⟨x :: l1, removed, by simp [removeFirst, hx, hrf]⟩

/-- C4 amended: for every persisted day and every entry e it contains, if
every entry of the day carries the day screen time (the invariant the Day
API maintains; the Go undo re-adds the recorded entry through Day.AddEntry,
which overwrites its screen time with the reloaded day value), then the
sequence record-delete, delete through the service, undo results in a day
whose entries contain an entry equal to e, and the undo reports the restore
description. -/
theorem c4_delete_undo_restores (disk : Disk) (day : Day) (e : Entry) (t : Nat)
    (hE : e ∈ day.entries)
    (hst : ∀ x ∈ day.entries, x.screenTime = day.screenTime) :
    ∃ o, deleteUndoPipeline disk day e t = .ok o ∧
      ∃ d2, o.day = some d2 ∧ e ∈ d2.entries ∧
        o.message = undoRestoredMsg e := by
  have hne : day.entries ≠ [] := by
    intro h
    rw [h] at hE
    simp at hE
  have hemp : day.IsEmpty = false := by
    simp [Day.IsEmpty, List.isEmpty_iff, hne]
  have hsvc : Service.SaveDay disk day = SaveDay disk day := by
    simp [Service.SaveDay, hemp]
  have hcsv1 : (SaveDay disk day).csv day.date = some (SaveRecords day) := by
    rw [saveDay_csv_at, if_pos (by simp [List.length_pos, hne])]
  obtain ⟨l1, removed, hrf⟩ := removeFirst_finds e day.entries hE
  have hdayrem : day.RemoveEntry e.id =
      ({ day with entries := l1 }, some removed) := by
    simp [Day.RemoveEntry, hrf]
  have hrem : Service.RemoveEntry (SaveDay disk day) day e.id =
      (SaveDay (SaveDay disk day) { day with entries := l1 },
       { day with entries := l1 }, some removed) := by
    simp only [Service.RemoveEntry, hdayrem]
  have hpop : (NewUndoStack.PushDeleteEntry day.date e).Pop =
      (some { type := .deleteEntry, date := day.date, entry := some e.Clone,
              description := deletedMsg e },
       { actions := [], maxSize := 100 }) := rfl
  have hEst : e.screenTime = day.screenTime := hst e hE
  -- the reload of the affected day after the delete
  have hreload : ∃ loaded,
      LoadDay (SaveDay (SaveDay disk day) { day with entries := l1 })
        day.date t = .ok loaded ∧
      loaded.screenTime =
        (if day.screenTime = "" then emptyText else day.screenTime) := by
    by_cases hl1 : l1 = []
    · subst hl1
      have hB : (SaveDay (SaveDay disk day) { day with entries := ([] : List Entry) }).csv
          day.date = some (SaveRecords day) := by
        have hb := saveDay_csv_at (SaveDay disk day)
          { day with entries := ([] : List Entry) }
        simp at hb
        exact hb.trans hcsv1
      obtain ⟨loaded, hload, _, _, hstval, _, _⟩ :=
        loadDay_of_saved _ day.date day t hB
      exact ⟨loaded, hload, by rw [hstval, if_neg hne]⟩
    · have hA : (SaveDay (SaveDay disk day) { day with entries := l1 }).csv
          day.date = some (SaveRecords { day with entries := l1 }) := by
        have hb := saveDay_csv_at (SaveDay disk day) { day with entries := l1 }
        simpa [List.length_pos, hl1] using hb
      obtain ⟨loaded, hload, _, _, hstval, _, _⟩ :=
        loadDay_of_saved _ day.date { day with entries := l1 } t hA
      exact ⟨loaded, hload, by simpa [hl1] using hstval⟩
  obtain ⟨loaded, hload, hS⟩ := hreload
  have hSe : ({ e.Clone with screenTime := loaded.screenTime } : Entry) = e := by
    have hv : loaded.screenTime = e.screenTime := by
      rw [hS, hEst]
      split_ifs with h
      · rw [h]
        rfl
      · rfl
    rw [hv]
    rfl
  refine ⟨{ message := undoRestoredMsg e.Clone,
            day := some (loaded.AddEntry e.Clone),
            disk := Service.SaveDay
              (SaveDay (SaveDay disk day) { day with entries := l1 })
              (loaded.AddEntry e.Clone),
            stack := { actions := [], maxSize := 100 } }, ?_, ?_⟩
  · simp only [deleteUndoPipeline, hsvc, hrem, UndoManager.Undo, hpop,
      Service.GetDay, hload]
  · refine ⟨loaded.AddEntry e.Clone, rfl, ?_, rfl⟩
    simp only [Day.AddEntry, List.mem_append, List.mem_singleton]
    right
    exact hSe.symm

/-- C4 witness: a one-entry day satisfying the screen-time invariant
restores the deleted entry exactly. -/
theorem c4_delete_undo_restores_witness :
    c4wEntry ∈ c4wDay.entries ∧
    (∀ x ∈ c4wDay.entries, x.screenTime = c4wDay.screenTime) ∧
    (∃ o, deleteUndoPipeline emptyDisk c4wDay c4wEntry 9 = .ok o ∧
      ∃ d2, o.day = some d2 ∧ c4wEntry ∈ d2.entries ∧
        o.message = undoRestoredMsg c4wEntry) :=
  ⟨by simp [c4wDay], by simp [c4wDay, c4wEntry],
   c4_delete_undo_restores emptyDisk c4wDay c4wEntry 9 (by simp [c4wDay])
     (by simp [c4wDay, c4wEntry])⟩

/-- C4 counterexample: if the deleted entry carried a screen time different
from its day (here the day screen time is empty), the restored entry comes
back with the day value, not with its recorded screen time, so no entry of
the resulting day equals the deleted one. -/
theorem c4_counterexample :
    c4cEntry ∈ c4cDay.entries ∧ c4cEntry.screenTime ≠ c4cDay.screenTime ∧
    (deleteUndoPipeline emptyDisk c4cDay c4cEntry 5).toOption.map
        (fun o => o.day.map fun d => d.entries.map fun x => x.screenTime) =
      some (some [c4cDay.screenTime, c4cDay.screenTime]) := by
  refine ⟨by simp [c4cDay], by simp [c4cDay, c4cEntry], ?_⟩
  simp [deleteUndoPipeline, Service.SaveDay, Service.RemoveEntry,
    Day.IsEmpty, Day.RemoveEntry, removeFirst, UndoManager.Undo,
    UndoStack.Pop, UndoStack.PushDeleteEntry, UndoStack.Push, NewUndoStack,
    Entry.Clone, Service.GetDay, LoadDay, SaveDay, emptyDisk, Disk.writeCsv,
    Disk.writeJournal, SaveRecords, recordsConsistent, csvHeaderRecord,
    entryRecord, dateField, textField, cadField, idrField, loadRowsGo,
    rowAccept, NewDay, NewEntry, Day.AddEntry, Day.SetScreenTime,
    Except.toOption, LoadJournal, c4cDay, c4cEntry, deletedMsg]

/-- C6: the TS loader skips malformed rows locally (rows with fewer than 5
fields or an unparseable date are dropped, unparseable numerics default
to 0) and loads the remaining well-formed rows; but the Go loader aborts the
whole day load with an error on the same file, because encoding/csv rejects
records whose field count differs from the first record. -/
theorem c6_malformed_rows :
    (∀ (t : Nat) (rows : List (List Field)) (day : Day) (created : Nat),
       (Ts.tsLoadRows t rows day created).entries.map coreOf =
         day.entries.map coreOf ++ (rows.filterMap rowAccept).map coreOfRow) ∧
    LoadDay c6disk fixDate 0 = .error csvReadErr ∧
    (Ts.tsLoadDay c6disk fixDate 0).entries.map coreOf =
      [(fixDate, coffeeWord, 4, 53100)] := by
  refine ⟨fun t rows day created => tsLoadRows_core t rows day created,
    rfl, ?_⟩
  simp [Ts.tsLoadDay, c6disk, emptyDisk, Disk.writeCsv, c6records,
    csvHeaderRecord, c6goodRow, c6shortRow, Ts.tsLoadRows, rowAccept,
    dateField, textField, cadField, idrField, NewDay, NewEntry, coreOf,
    coffeeWord, oneHourWord, LoadJournal, round2, cents, roundInt]
  norm_num [round_eq]
